import Mathlib

/-!
Verification development for the Handel-style weighted signature aggregation
subsystem of this repository.

Part 1 shallowly embeds `WeightedVote::evaluate` and `WeightedVote::verify`
from `src/handel/src/evaluator.rs`.  The evaluator is generic over a
`Protocol` bundle (registry, partitioner, store); those collaborators are
embedded as explicit structures whose fields mirror the trait methods the
evaluator calls.  An `Identity` (a dense bitset of validator indices) is
embedded as a `Finset ℕ`; bitset length is `Finset.card`, `is_superset_of`
is `⊇`, `intersection_size` is the cardinality of `∩`, and the bitset XOR
used for the symmetric difference is `(a \ b) ∪ (b \ a)`.

Part 2 (further below) embeds the framed message reader state machine from
`src/network-libp2p/src/discovery/message_codec/reader.rs`.
-/

/-! ### Machine arithmetic

Rust `usize` arithmetic on a 64-bit target.  Release builds wrap on
overflow, so subtraction, addition and multiplication are taken modulo
`2 ^ 64`.
-/

/-- Modulus of 64-bit `usize` arithmetic. -/
def usizeModulus : Nat := 2 ^ 64

/-- Rust `usize::MAX` on a 64-bit target. -/
def usizeMax : Nat := usizeModulus - 1

/-- Wrapping `usize` subtraction. -/
def wsub (a b : Nat) : Nat :=
  (a % usizeModulus + (usizeModulus - b % usizeModulus)) % usizeModulus

/-- Wrapping `usize` addition. -/
def wadd (a b : Nat) : Nat := (a + b) % usizeModulus

/-- Wrapping `usize` multiplication. -/
def wmul (a b : Nat) : Nat := (a * b) % usizeModulus

/-! ### Data model -/

/-- A contribution: an aggregate signature together with the bitset of
contributors.  The opaque BLS signature payload is not represented because
neither `evaluate` nor `verify` ever inspects it; the registry weight
function receives the whole contribution, which here means its
contributor set. -/
structure Contribution where
  contributors : Finset Nat
deriving DecidableEq

/-- Embeds the registry collaborator (`IdentityRegistry` + `WeightRegistry`
traits): `signers_identity` projects a contributor bitset to an `Identity`,
`signature_weight` gives the summed weight of a contribution (`None` when a
signer is unknown). -/
structure Registry where
  signersIdentity : Finset Nat → Finset Nat
  signatureWeight : Contribution → Option Nat

/-- Embeds the `Partitioner` trait methods used by the evaluator.
Modelled from the spec where the implementation is not among the sampled
sources: levels are numbered `1..=levels()`, so a partitioner has at least
one level (the final-aggregate level, which contains all `size()`
validators); `identities_on` is `none` off the valid range. -/
structure Partitioner where
  levels : Nat
  size : Nat
  levelSize : Nat → Nat
  identitiesOn : Nat → Option (Finset Nat)
  levels_pos : 1 ≤ levels

/-- Embeds the `ContributionStore` trait methods used by the evaluator. -/
structure Store where
  individualSignature : Nat → Finset Nat → Option Contribution
  individualVerified : Nat → Finset Nat
  best : Nat → Option Contribution

/-- Embeds `LevelUpdate<C>`: aggregate, optional individual contribution,
level (a `u8` on the wire) and origin (a `u16` on the wire); the numeric
values are represented directly. -/
structure LevelUpdate where
  aggregate : Contribution
  individual : Option Contribution
  level : Nat
  origin : Nat

/-! ### Identity operations

Modelled from the spec: `Identity::combine(other, allow_overlap = false)`
is a domain error when the two sets intersect, otherwise the union
(`identity.rs` is not among the sampled sources).  The bitset XOR `a ^ b`
is the symmetric difference. -/

/-- Identity union that is a domain error (`none`) on overlap, as
`combine` with `allow_overlap = false`. -/
def combineNoOverlap (a b : Finset Nat) : Option (Finset Nat) :=
  if a ∩ b = ∅ then some (a ∪ b) else none

/-- Bitset XOR: the symmetric difference of the two identity sets. -/
def xorFin (a b : Finset Nat) : Finset Nat := (a \ b) ∪ (b \ a)

/-! ### Scoring constants (`WeightedVote` associated constants) -/

def COMPLETES_LEVEL_BASE_SCORE : Nat := 1000000

def COMPLETES_LEVEL_LEVEL_PENALTY : Nat := 10

def IMPROVEMENT_BASE_SCORE : Nat := 100000

def IMPROVEMENT_LEVEL_PENALTY : Nat := 100

def IMPROVEMENT_ADDED_SIG_BONUS : Nat := 10

/-! ### `WeightedVote::evaluate` -/

/-- Step 6 of `evaluate`: the `(new_total, added_sigs, combined_sigs)`
triple.  `added_sigs` is computed in `isize` (here `Int`); the strict
`combine` in the disjoint branch yields `none` on a domain error.  The
two `usize` subtractions `new_total - identity.len()` cannot underflow
because `with_individuals ⊇ identity`, so plain `Nat` subtraction is
exact there. -/
def evalTriple (weights : Registry) (store : Store) (level : Nat)
    (identity : Finset Nat) : Option (Nat × Int × Nat) :=
  let withIndividuals := identity ∪ store.individualVerified level
  match store.best level with
  | some bestSignature =>
      let bestContributors := weights.signersIdentity bestSignature.contributors
      if 0 < (identity ∩ bestContributors).card then
        -- The incoming contribution overlaps the best one: merge individuals only.
        some (withIndividuals.card,
              (withIndividuals.card : Int) - (bestContributors.card : Int),
              withIndividuals.card - identity.card)
      else
        -- Disjoint: the aggregates can be combined.
        match combineNoOverlap bestContributors identity with
        | none => none
        | some withoutIndividuals =>
            let finalSig := withIndividuals ∪ bestContributors
            some (finalSig.card,
                  (finalSig.card : Int) - (bestContributors.card : Int),
                  (xorFin finalSig withoutIndividuals).card)
  | none =>
      -- No best yet: the new contribution (with individuals) becomes the best.
      some (withIndividuals.card,
            (withIndividuals.card : Int),
            withIndividuals.card - identity.card)

/-- Step 7 of `evaluate`: the score computed from the triple. -/
def scoreOf (weights : Registry) (contribution : Contribution)
    (identity : Finset Nat) (level levelIdentityCount : Nat)
    (t : Nat × Int × Nat) : Nat :=
  if t.2.1 ≤ 0 then
    if identity.card = 1 then (weights.signatureWeight contribution).getD 0
    else 0
  else if t.1 = levelIdentityCount then
    wsub (wsub COMPLETES_LEVEL_BASE_SCORE
      (wmul level COMPLETES_LEVEL_LEVEL_PENALTY)) t.2.2
  else
    wsub (wadd (wsub IMPROVEMENT_BASE_SCORE (wmul level IMPROVEMENT_LEVEL_PENALTY))
      (wmul t.2.1.toNat IMPROVEMENT_ADDED_SIG_BONUS)) t.2.2

/-- Both early-exit checks against the stored best contribution (level
already complete, or the best is a superset of the incoming identity);
either one makes `evaluate` return `0`. -/
def bestAlreadyCovers (weights : Registry) (store : Store) (level : Nat)
    (levelIdentityCount : Nat) (identity : Finset Nat) : Bool :=
  match store.best level with
  | some bestContribution =>
      let bestContributors := weights.signersIdentity bestContribution.contributors
      decide (levelIdentityCount = bestContributors.card)
        || decide (identity ⊆ bestContributors)
  | none => false

/-- Embeds `WeightedVote::evaluate`.  The result is `none` exactly when the
strict `combine` inside the disjoint-merge branch would hit its domain
error (a panic in the source); otherwise `some score`. -/
def evaluate (weights : Registry) (partitioner : Partitioner) (store : Store)
    (contribution : Contribution) (level : Nat) : Option Nat :=
  -- Special case for final aggregations.
  if level = partitioner.levels then some usizeMax
  else
    let identity := weights.signersIdentity contribution.contributors
    -- Empty or faulty signatures get a score of 0.
    if identity = ∅ then some 0
    -- A single signer that is already known scores 0.
    else if identity.card = 1 ∧ (store.individualSignature level identity).isSome
      then some 0
    -- Level already complete, or the best is a superset: score 0.
    else if bestAlreadyCovers weights store level (partitioner.levelSize level)
        identity then some 0
    else
      (evalTriple weights store level identity).map
        (scoreOf weights contribution identity level (partitioner.levelSize level))

/-! ### `WeightedVote::verify` -/

/-- Embeds the `VerificationError` enum. -/
inductive VerificationError where
  | invalidLevel (level numLevels : Nat)
  | invalidFullAggregate (weight expectedWeight : Nat)
  | invalidOrigin (origin : Nat) (allowedContributors : Finset Nat)
  | invalidIndividualContribution (numContributors : Nat) (containsOrigin : Bool)
  | invalidContributors (contributors allowedContributors : Finset Nat)
deriving DecidableEq

/-- Final check of `verify`: all contributors of the aggregate must be
allowed on the level. -/
def verifyContributors (weights : Registry) (msg : LevelUpdate)
    (allowedContributors : Finset Nat) : Except VerificationError Unit :=
  let contributors := weights.signersIdentity msg.aggregate.contributors
  if ¬ contributors ⊆ allowedContributors then
    .error (.invalidContributors contributors allowedContributors)
  else .ok ()

/-- Embeds `WeightedVote::verify`.  The result is `none` exactly when the
`.expect` on `identities_on` would panic; otherwise `some` of the
verification outcome. -/
def verify (weights : Registry) (partitioner : Partitioner)
    (msg : LevelUpdate) : Option (Except VerificationError Unit) :=
  let level := msg.level
  let numLevels := partitioner.levels
  if numLevels < level ∨ level < 1 then
    some (.error (.invalidLevel level numLevels))
  else
    let contributors := weights.signersIdentity msg.aggregate.contributors
    -- Special case for full aggregations sent at level `num_levels`.
    if level = numLevels then
      if contributors.card ≠ partitioner.size then
        some (.error (.invalidFullAggregate contributors.card partitioner.size))
      else some (.ok ())
    else
      match partitioner.identitiesOn level with
      | none => none
      | some allowedContributors =>
          if msg.origin ∉ allowedContributors then
            some (.error (.invalidOrigin msg.origin allowedContributors))
          else
            match msg.individual with
            | some individual =>
                let individualContributors :=
                  weights.signersIdentity individual.contributors
                if individualContributors.card ≠ 1
                    ∨ msg.origin ∉ individualContributors then
                  some (.error (.invalidIndividualContribution
                    individualContributors.card
                    (decide (msg.origin ∈ individualContributors))))
                else some (verifyContributors weights msg allowedContributors)
            | none => some (verifyContributors weights msg allowedContributors)

/-! ### Part 2: framed message reader
(`src/network-libp2p/src/discovery/message_codec/reader.rs`)

The byte stream is modelled as the list of bytes the underlying reader
will still deliver, followed by EOF; `Poll::Pending` waits and transient
I/O errors of the underlying reader are not modelled (poll outcomes that
do not change the frame-decoding logic).  `poll_next` takes the reader
state and buffer and the remaining input and returns the poll result
together with the new state, buffer and remaining input. -/

/-- Embeds `nimiq_serde::DeserializeError` with the variants the reader
distinguishes: `unexpected_end` and any other decode failure. -/
inductive DeserializeError where
  | unexpectedEnd
  | badEncoding
deriving DecidableEq

/-- Modelled from the spec: the frame header carries a `size: u32`
big-endian payload length (`header.rs` is not among the sampled
sources). -/
structure Header where
  size : Nat
deriving DecidableEq

/-- Modelled from the spec: the serialized size of a `Header` (4 bytes for
the big-endian `u32` payload length). -/
def Header.SIZE : Nat := 4

/-- Big-endian byte-list to natural number conversion. -/
def beNat (bs : List Nat) : Nat :=
  bs.foldl (fun acc b => acc * 256 + b % 256) 0

/-- Modelled from the spec: `Header::deserialize_from_vec` reads the
4-byte big-endian `u32` payload length. -/
def headerDeserializeFromVec (bs : List Nat) : Except DeserializeError Header :=
  if bs.length = Header.SIZE then .ok ⟨beNat bs⟩ else .error .badEncoding

/-- Embeds the `ReaderState` enum. -/
inductive ReaderState where
  | head
  | data (header : Header)
deriving DecidableEq

/-- Result of one `poll_next` call on the message reader. -/
inductive PollResult (μ : Type) where
  | pending
  | readyNone
  | readyOk (m : μ)
  | readyErr (e : DeserializeError)
deriving DecidableEq

/-- Embeds `read_to_buf`: fill `buffer` up to `wanted` bytes from the
remaining `input`.  Returns the remaining input, the new buffer, and
`true` when the buffer holds `wanted` bytes (`false` means EOF was hit
first, with the partial bytes kept in the buffer). -/
def readToBuf (input buffer : List Nat) (wanted : Nat) :
    List Nat × List Nat × Bool :=
  if wanted ≤ buffer.length then (input, buffer, true)
  else if wanted - buffer.length ≤ input.length then
    (input.drop (wanted - buffer.length),
     buffer ++ input.take (wanted - buffer.length), true)
  else ([], buffer ++ input, false)

/-- Embeds `MessageReader::poll_next`, parametric in the payload decoder
`M::deserialize_from_vec`.  Mirrors the source control flow: a decoded
header switches the state to `Data`, wakes the task and returns
`Pending`; the early returns on decode errors leave state and buffer
untouched. -/
def pollNext {μ : Type} (decode : List Nat → Except DeserializeError μ)
    (state : ReaderState) (buffer input : List Nat) :
    PollResult μ × ReaderState × List Nat × List Nat :=
  match state with
  | .head =>
      match readToBuf input buffer Header.SIZE with
      | (input', buffer', false) =>
          -- EOF while reading the header.
          if buffer' = [] then (.readyNone, .head, buffer', input')
          else (.readyErr .unexpectedEnd, .head, buffer', input')
      | (input', buffer', true) =>
          match headerDeserializeFromVec buffer' with
          | .error e => (.readyErr e, .head, buffer', input')
          | .ok header =>
              -- Buffer reset; read the data next; wake and return `Pending`.
              (.pending, .data header, [], input')
  | .data header =>
      match readToBuf input buffer header.size with
      | (input', buffer', false) =>
          -- EOF while reading the data.
          (.readyErr .unexpectedEnd, .data header, buffer', input')
      | (input', buffer', true) =>
          match decode buffer' with
          | .error e => (.readyErr e, .data header, buffer', input')
          | .ok m => (.readyOk m, .head, [], input')

/-! ### Concrete instances

A concrete protocol in the shape of scenario S1 of the spec: `N = 4`
validators `{0, 1, 2, 3}`, `L = 3` levels with level 3 the reserved
final-aggregate level.  The registry projection is the identity map and
every signer has weight 1. -/

/-- Registry whose `signers_identity` is the identity projection and
whose weights are uniformly 1. -/
def reg0 : Registry := ⟨fun b => b, fun c => some c.contributors.card⟩

/-- Partitioner for 4 validators and 3 levels (level 3 final). -/
def part0 : Partitioner :=
  ⟨3, 4, fun l => 2 ^ (l - 1),
   fun l => if l = 1 then some {1} else if l = 2 then some {2, 3}
     else if l = 3 then some {0, 1, 2, 3} else none,
   by decide⟩

/-- Store state holding a full final aggregate at level 3 and nothing
else. -/
def store0 : Store :=
  ⟨fun _ _ => none, fun _ => ∅,
   fun l => if l = 3 then some ⟨{0, 1, 2, 3}⟩ else none⟩

/-- Store state whose level-1 best `{1}` is complete
(`level_size 1 = 1`), with no stored individuals. -/
def store1 : Store :=
  ⟨fun _ _ => none, fun _ => ∅,
   fun l => if l = 1 then some ⟨{1}⟩ else none⟩

/-- Single-signer contribution of validator 0. -/
def c0 : Contribution := ⟨{0}⟩

/-- Level update carrying the full aggregate of all 4 validators at the
final level 3, but with an origin (99) outside every level's allowed set
and an attached individual whose contributor (7) differs from the
origin. -/
def msgFull : LevelUpdate := ⟨⟨{0, 1, 2, 3}⟩, some ⟨{7}⟩, 3, 99⟩

/-- Well-formed level-1 update from validator 1. -/
def msg1 : LevelUpdate := ⟨⟨{1}⟩, none, 1, 1⟩

/-- Payload decoder that fails on every input. -/
def decFail : List Nat → Except DeserializeError Unit :=
  fun _ => .error .badEncoding

/-- Cardinality of the identity of the stored best contribution at a
level (0 when there is none); used to bound store sizes. -/
def bestCardAt (weights : Registry) (store : Store) (level : Nat) : Nat :=
  match store.best level with
  | some B => (weights.signersIdentity B.contributors).card
  | none => 0

/-! ### Arithmetic lemmas for wrapping `usize` operations -/

theorem wsub_of_le (a b : Nat) (hb : b ≤ a) (ha : a < usizeModulus) :
    wsub a b = a - b := by
  unfold wsub
  have hbm : b % usizeModulus = b := Nat.mod_eq_of_lt (lt_of_le_of_lt hb ha)
  have ham : a % usizeModulus = a := Nat.mod_eq_of_lt ha
  rw [hbm, ham]
  have h1 : a + (usizeModulus - b) = usizeModulus + (a - b) := by omega
  rw [h1, Nat.add_mod_left, Nat.mod_eq_of_lt (by omega)]

theorem wadd_of_lt (a b : Nat) (h : a + b < usizeModulus) : wadd a b = a + b :=
  Nat.mod_eq_of_lt h

theorem wmul_of_lt (a b : Nat) (h : a * b < usizeModulus) : wmul a b = a * b :=
  Nat.mod_eq_of_lt h

theorem usizeModulus_big : 1000000000 < usizeModulus := by
  norm_num [usizeModulus]

/-- A completing score is positive as long as the level penalty and the
individual-merge count stay below the base score. -/
theorem completes_score_pos (level combined : Nat)
    (h : 10 * level + combined < 1000000) :
    0 < wsub (wsub COMPLETES_LEVEL_BASE_SCORE
      (wmul level COMPLETES_LEVEL_LEVEL_PENALTY)) combined := by
  have hmod := usizeModulus_big
  simp only [COMPLETES_LEVEL_BASE_SCORE, COMPLETES_LEVEL_LEVEL_PENALTY]
  have hm : wmul level 10 = level * 10 := wmul_of_lt _ _ (by omega)
  rw [hm]
  have h1 : wsub 1000000 (level * 10) = 1000000 - level * 10 :=
    wsub_of_le _ _ (by omega) (by omega)
  rw [h1]
  have h2 : wsub (1000000 - level * 10) combined
      = (1000000 - level * 10) - combined :=
    wsub_of_le _ _ (by omega) (by omega)
  rw [h2]
  omega

/-- An improving score is positive as long as the level is small and the
merge count is below the number of added signatures. -/
theorem improvement_score_pos (level added combined : Nat)
    (hlev : level ≤ 1000) (h1 : 1 ≤ added) (h2 : combined < added)
    (h3 : added ≤ 1000000) :
    0 < wsub (wadd (wsub IMPROVEMENT_BASE_SCORE
      (wmul level IMPROVEMENT_LEVEL_PENALTY))
      (wmul added IMPROVEMENT_ADDED_SIG_BONUS)) combined := by
  have hmod := usizeModulus_big
  simp only [IMPROVEMENT_BASE_SCORE, IMPROVEMENT_LEVEL_PENALTY,
    IMPROVEMENT_ADDED_SIG_BONUS]
  have hm1 : wmul level 100 = level * 100 := wmul_of_lt _ _ (by omega)
  have hm2 : wmul added 10 = added * 10 := wmul_of_lt _ _ (by omega)
  rw [hm1, hm2]
  have hs1 : wsub 100000 (level * 100) = 100000 - level * 100 :=
    wsub_of_le _ _ (by omega) (by omega)
  rw [hs1]
  have ha : wadd (100000 - level * 100) (added * 10)
      = (100000 - level * 100) + added * 10 :=
    wadd_of_lt _ _ (by omega)
  rw [ha]
  have hs2 : wsub ((100000 - level * 100) + added * 10) combined
      = ((100000 - level * 100) + added * 10) - combined :=
    wsub_of_le _ _ (by omega) (by omega)
  rw [hs2]
  omega

/-! ### Helper lemmas about the evaluator -/

/-- The triple computation never hits the strict-combine domain error:
its disjoint branch is guarded by the emptiness of the intersection. -/
theorem evalTriple_isSome (weights : Registry) (store : Store) (level : Nat)
    (identity : Finset Nat) :
    (evalTriple weights store level identity).isSome = true := by
  unfold evalTriple
  cases hb : store.best level with
  | none => rfl
  | some bestSignature =>
      simp only []
      split_ifs with h1
      · rfl
      · have hd : weights.signersIdentity bestSignature.contributors ∩ identity
            = ∅ := by
          rw [Finset.inter_comm]
          exact Finset.card_eq_zero.mp (Nat.eq_zero_of_not_pos h1)
        simp [combineNoOverlap, hd]

/-- The final contributor-subset check of `verify` only succeeds when the
contributors are allowed. -/
theorem verifyContributors_ok (weights : Registry) (msg : LevelUpdate)
    (allowed : Finset Nat)
    (h : verifyContributors weights msg allowed = .ok ()) :
    weights.signersIdentity msg.aggregate.contributors ⊆ allowed := by
  unfold verifyContributors at h
  by_cases hs : ¬ weights.signersIdentity msg.aggregate.contributors ⊆ allowed
  · rw [if_pos hs] at h
    exact absurd h (by simp)
  · exact not_not.mp hs

/-! ### Claim C5 -/

/-- C5: if `level` equals `partitioner.levels()`, `evaluate` returns the
maximum score `usize::MAX` for every registry, store and contribution —
so it consults neither the store, nor the registry weights, nor the
contribution's contents. -/
theorem evaluate_final_level_max (weights : Registry)
    (partitioner : Partitioner) (store : Store) (contribution : Contribution)
    (level : Nat) (h : level = partitioner.levels) :
    evaluate weights partitioner store contribution level = some usizeMax := by
  unfold evaluate
  rw [if_pos h]

/-- Witness for C5: a concrete final-level contribution scores
`usize::MAX`. -/
theorem evaluate_final_level_max_witness :
    (3 = part0.levels) ∧
      evaluate reg0 part0 store0 c0 3 = some usizeMax :=
  ⟨rfl, evaluate_final_level_max reg0 part0 store0 c0 3 rfl⟩

/-! ### Claim C8 -/

/-- C8: the strict (`allow_overlap = false`) combine inside the
disjoint-merge branch of `evaluate` never violates its no-overlap
precondition: the guarding intersection-size check makes the domain-error
branch unreachable, so `evaluate` always returns a score. -/
theorem evaluate_isSome (weights : Registry) (partitioner : Partitioner)
    (store : Store) (contribution : Contribution) (level : Nat) :
    (evaluate weights partitioner store contribution level).isSome = true := by
  have ht := evalTriple_isSome weights store level
    (weights.signersIdentity contribution.contributors)
  simp only [evaluate]
  split_ifs <;> try rfl
  cases hT : evalTriple weights store level
      (weights.signersIdentity contribution.contributors) with
  | none => rw [hT] at ht; simp at ht
  | some t => rfl

/-! ### Claim C3 -/

/-- C3 counterexample: at the final level (`3 = levels()`), the store's
best is complete (`4 = level_size 3` contributors, under the identity
registry projection), yet `evaluate` returns `usize::MAX`, not `0`. -/
theorem evaluate_complete_counterexample :
    store0.best 3 = some ⟨{0, 1, 2, 3}⟩ ∧
      reg0.signersIdentity {0, 1, 2, 3} = {0, 1, 2, 3} ∧
      ({0, 1, 2, 3} : Finset Nat).card = part0.levelSize 3 ∧
      evaluate reg0 part0 store0 c0 3 ≠ some 0 := by decide

/-- C3 (amended): completed levels are sticky at every level other than
`partitioner.levels()`: once the stored best's identity has `level_size`
members, `evaluate` returns `0` for every further contribution at that
level.  (At `level = levels()` the final-aggregate special case returns
`usize::MAX` instead.) -/
theorem evaluate_complete_level_zero (weights : Registry)
    (partitioner : Partitioner) (store : Store) (contribution : Contribution)
    (level : Nat) (B : Contribution)
    (hlvl : level ≠ partitioner.levels)
    (hB : store.best level = some B)
    (hfull : (weights.signersIdentity B.contributors).card
      = partitioner.levelSize level) :
    evaluate weights partitioner store contribution level = some 0 := by
  have hcov : bestAlreadyCovers weights store level
      (partitioner.levelSize level)
      (weights.signersIdentity contribution.contributors) = true := by
    unfold bestAlreadyCovers
    rw [hB]
    simp [hfull]
  simp only [evaluate]
  rw [if_neg hlvl]
  split_ifs <;> rfl

/-- Witness for C3 (amended): a complete level-1 best makes a fresh
contribution score `0`. -/
theorem evaluate_complete_level_zero_witness :
    (1 ≠ part0.levels) ∧ store1.best 1 = some ⟨{1}⟩ ∧
      (reg0.signersIdentity (Contribution.mk {1}).contributors).card
        = part0.levelSize 1 ∧
      evaluate reg0 part0 store1 ⟨{2}⟩ 1 = some 0 :=
  ⟨by decide, by decide, by decide,
   evaluate_complete_level_zero reg0 part0 store1 ⟨{2}⟩ 1 ⟨{1}⟩
     (by decide) (by decide) (by decide)⟩

/-! ### Claim C4 -/

/-- C4 counterexample: at the final level (`3 = levels()`), the incoming
identity `{0}` is a subset of the stored best's contributors, yet
`evaluate` returns `usize::MAX`, not `0`. -/
theorem evaluate_subset_counterexample :
    store0.best 3 = some ⟨{0, 1, 2, 3}⟩ ∧
      reg0.signersIdentity c0.contributors ⊆
        reg0.signersIdentity ({0, 1, 2, 3} : Finset Nat) ∧
      evaluate reg0 part0 store0 c0 3 ≠ some 0 := by decide

/-- C4 (amended): subset suppression holds at every level other than
`partitioner.levels()`: whenever the identity of the incoming
contribution is a subset of the stored best's identity, `evaluate`
returns `0`.  (At `level = levels()` the final-aggregate special case
returns `usize::MAX` instead.) -/
theorem evaluate_subset_zero (weights : Registry) (partitioner : Partitioner)
    (store : Store) (contribution : Contribution) (level : Nat)
    (B : Contribution)
    (hlvl : level ≠ partitioner.levels)
    (hB : store.best level = some B)
    (hsub : weights.signersIdentity contribution.contributors ⊆
      weights.signersIdentity B.contributors) :
    evaluate weights partitioner store contribution level = some 0 := by
  have hcov : bestAlreadyCovers weights store level
      (partitioner.levelSize level)
      (weights.signersIdentity contribution.contributors) = true := by
    unfold bestAlreadyCovers
    rw [hB]
    simp [hsub]
  simp only [evaluate]
  rw [if_neg hlvl]
  split_ifs <;> rfl

/-- Witness for C4 (amended): a level-1 contribution covered by the
stored best scores `0`. -/
theorem evaluate_subset_zero_witness :
    (1 ≠ part0.levels) ∧ store1.best 1 = some ⟨{1}⟩ ∧
      reg0.signersIdentity (Contribution.mk {1}).contributors ⊆
        reg0.signersIdentity (Contribution.mk {1}).contributors ∧
      evaluate reg0 part0 store1 ⟨{1}⟩ 1 = some 0 :=
  ⟨by decide, by decide, by decide,
   evaluate_subset_zero reg0 part0 store1 ⟨{1}⟩ 1 ⟨{1}⟩
     (by decide) (by decide) (by decide)⟩

/-! ### Claim C10 -/

/-- C10: a level update at `level = partitioner.levels()` whose aggregate
identity has exactly `partitioner.size()` members passes `verify`
unconditionally — the origin check, the attached-individual consistency
check and the allowed-contributors check are all skipped, whatever
`msg.origin` and `msg.individual` are. -/
theorem verify_full_aggregate_ok (weights : Registry)
    (partitioner : Partitioner) (msg : LevelUpdate)
    (hlvl : msg.level = partitioner.levels)
    (hcard : (weights.signersIdentity msg.aggregate.contributors).card
      = partitioner.size) :
    verify weights partitioner msg = some (.ok ()) := by
  have h1 : ¬ (partitioner.levels < msg.level ∨ msg.level < 1) := by
    rw [hlvl]
    push_neg
    exact ⟨le_rfl, partitioner.levels_pos⟩
  simp only [verify]
  rw [if_neg h1, if_pos hlvl, if_neg (by rw [hcard]; exact fun hc => hc rfl)]

/-- Witness for C10: the full aggregate `msgFull` passes `verify` even
though its origin 99 is outside every level's allowed set and its
attached individual's contributor 7 differs from the origin. -/
theorem verify_full_aggregate_ok_witness :
    (msgFull.level = part0.levels) ∧
      (reg0.signersIdentity msgFull.aggregate.contributors).card = part0.size ∧
      msgFull.origin ∉ ({1} : Finset Nat) ∧
      msgFull.origin ∉ ({2, 3} : Finset Nat) ∧
      msgFull.origin ∉ ({0, 1, 2, 3} : Finset Nat) ∧
      msgFull.individual = some ⟨{7}⟩ ∧
      ({7} : Finset Nat) ≠ {msgFull.origin} ∧
      verify reg0 part0 msgFull = some (.ok ()) :=
  ⟨by decide, by decide, by decide, by decide, by decide, by decide, by decide,
   verify_full_aggregate_ok reg0 part0 msgFull (by decide) (by decide)⟩

/-! ### Claim C1 -/

/-- C1: every level update accepted by `verify` either is a final
aggregate (`level = levels()` with exactly `size()` identity members) or
sits on a proper level `1 ≤ level < levels()` with its contributors a
subset of the level's allowed identities, its origin allowed on the
level, and any attached individual having exactly the origin as its one
contributor. -/
theorem verify_ok_characterization (weights : Registry)
    (partitioner : Partitioner) (msg : LevelUpdate)
    (h : verify weights partitioner msg = some (.ok ())) :
    (msg.level = partitioner.levels ∧
      (weights.signersIdentity msg.aggregate.contributors).card
        = partitioner.size) ∨
    (1 ≤ msg.level ∧ msg.level < partitioner.levels ∧
      ∃ allowed, partitioner.identitiesOn msg.level = some allowed ∧
        weights.signersIdentity msg.aggregate.contributors ⊆ allowed ∧
        msg.origin ∈ allowed ∧
        ∀ ind, msg.individual = some ind →
          weights.signersIdentity ind.contributors = {msg.origin}) := by
  simp only [verify] at h
  by_cases h1 : partitioner.levels < msg.level ∨ msg.level < 1
  · rw [if_pos h1] at h
    simp at h
  rw [if_neg h1] at h
  push_neg at h1
  obtain ⟨hle, hge⟩ := h1
  by_cases h2 : msg.level = partitioner.levels
  · rw [if_pos h2] at h
    by_cases h3 : (weights.signersIdentity msg.aggregate.contributors).card
        ≠ partitioner.size
    · rw [if_pos h3] at h
      simp at h
    · exact Or.inl ⟨h2, not_not.mp h3⟩
  rw [if_neg h2] at h
  refine Or.inr ⟨hge, lt_of_le_of_ne hle h2, ?_⟩
  cases hA : partitioner.identitiesOn msg.level with
  | none => rw [hA] at h; simp at h
  | some allowed =>
      rw [hA] at h
      dsimp only at h
      by_cases h4 : msg.origin ∉ allowed
      · rw [if_pos h4] at h
        simp at h
      rw [if_neg h4] at h
      cases hI : msg.individual with
      | none =>
          rw [hI] at h
          have hok : verifyContributors weights msg allowed = .ok () :=
            Option.some.inj h
          exact ⟨allowed, rfl, verifyContributors_ok weights msg allowed hok,
            not_not.mp h4, fun ind hind => absurd hind (by simp)⟩
      | some ind =>
          rw [hI] at h
          dsimp only at h
          by_cases h5 : (weights.signersIdentity ind.contributors).card ≠ 1
              ∨ msg.origin ∉ weights.signersIdentity ind.contributors
          · rw [if_pos h5] at h
            simp at h
          rw [if_neg h5] at h
          push_neg at h5
          obtain ⟨hcard1, hmem⟩ := h5
          have hok : verifyContributors weights msg allowed = .ok () :=
            Option.some.inj h
          refine ⟨allowed, rfl, verifyContributors_ok weights msg allowed hok,
            not_not.mp h4, fun ind1 hind => ?_⟩
          obtain rfl : ind = ind1 := Option.some.inj hind
          obtain ⟨a, ha⟩ := Finset.card_eq_one.mp hcard1
          rw [ha] at hmem ⊢
          rw [Finset.mem_singleton.mp hmem]

/-- Witness for C1: the well-formed proper-level update `msg1` passes
`verify` and satisfies the characterization. -/
theorem verify_ok_characterization_witness :
    verify reg0 part0 msg1 = some (.ok ()) ∧
      ((msg1.level = part0.levels ∧
        (reg0.signersIdentity msg1.aggregate.contributors).card = part0.size) ∨
      (1 ≤ msg1.level ∧ msg1.level < part0.levels ∧
        ∃ allowed, part0.identitiesOn msg1.level = some allowed ∧
          reg0.signersIdentity msg1.aggregate.contributors ⊆ allowed ∧
          msg1.origin ∈ allowed ∧
          ∀ ind, msg1.individual = some ind →
            reg0.signersIdentity ind.contributors = {msg1.origin})) :=
  ⟨rfl, verify_ok_characterization reg0 part0 msg1 rfl⟩

/-! ### Claim C2 -/

/-- C2 counterexample: with a failing payload decoder and a fully-read
payload, `poll_next` surfaces the decode error but the reader state stays
in `Data`, not `Head` — the claimed transition back to `Head` does not
happen. -/
theorem pollNext_decode_error_counterexample :
    (pollNext decFail (.data ⟨0⟩) [] []).1 = PollResult.readyErr .badEncoding ∧
      (pollNext decFail (.data ⟨0⟩) [] []).2.1 ≠ ReaderState.head := by decide

/-- C2 (amended): when the reader is in the `Data` state with the payload
bytes fully read and the payload decoder fails, `poll_next` surfaces the
decode error and leaves the reader state in `Data` with the buffer
untouched, so the next poll retries the same payload instead of reading a
fresh header. -/
theorem pollNext_decode_error_keeps_data_state {μ : Type}
    (decode : List Nat → Except DeserializeError μ) (header : Header)
    (buffer input : List Nat) (e : DeserializeError)
    (hlen : buffer.length = header.size)
    (hdec : decode buffer = .error e) :
    pollNext decode (.data header) buffer input =
      (.readyErr e, .data header, buffer, input) := by
  have hr : readToBuf input buffer header.size = (input, buffer, true) := by
    unfold readToBuf
    rw [if_pos (le_of_eq hlen.symm)]
  simp only [pollNext]
  rw [hr]
  dsimp only
  rw [hdec]

/-- Witness for C2 (amended): a one-byte payload that fails to decode is
surfaced as an error while the state stays `Data`. -/
theorem pollNext_decode_error_keeps_data_state_witness :
    ([7] : List Nat).length = (Header.mk 1).size ∧
      decFail [7] = .error .badEncoding ∧
      pollNext decFail (.data ⟨1⟩) [7] [] =
        (.readyErr .badEncoding, .data ⟨1⟩, [7], []) :=
  ⟨rfl, rfl,
   pollNext_decode_error_keeps_data_state decFail ⟨1⟩ [7] [] .badEncoding rfl rfl⟩

/-! ### Claim C9 -/

/-- C9: end-of-stream behaviour of the reader: clean EOF in the `Head`
state with an empty buffer ends the stream (`readyNone`); EOF after a
partial header (some bytes, but fewer than `Header.SIZE`) and EOF after a
header but before the full payload both yield the `UnexpectedEnd`
error. -/
theorem pollNext_eof_behaviour (μ : Type)
    (decode : List Nat → Except DeserializeError μ) :
    (pollNext decode .head [] [] = (.readyNone, .head, [], [])) ∧
    (∀ buffer input : List Nat, 0 < buffer.length + input.length →
      buffer.length + input.length < Header.SIZE →
      (pollNext decode .head buffer input).1 = .readyErr .unexpectedEnd) ∧
    (∀ (header : Header) (buffer input : List Nat),
      buffer.length + input.length < header.size →
      (pollNext decode (.data header) buffer input).1
        = .readyErr .unexpectedEnd) := by
  refine ⟨rfl, ?_, ?_⟩
  · intro buffer input h1 h2
    have hsz : Header.SIZE = 4 := rfl
    rw [hsz] at h2
    have hr : readToBuf input buffer Header.SIZE = ([], buffer ++ input, false) := by
      unfold readToBuf
      rw [hsz]
      rw [if_neg (by omega), if_neg (by omega)]
    simp only [pollNext]
    rw [hr]
    have hne : buffer ++ input ≠ [] := by
      intro he
      have hl : (buffer ++ input).length = 0 := by rw [he]; rfl
      rw [List.length_append] at hl
      omega
    dsimp only
    rw [if_neg hne]
  · intro header buffer input h1
    have hr : readToBuf input buffer header.size = ([], buffer ++ input, false) := by
      unfold readToBuf
      rw [if_neg (by omega), if_neg (by omega)]
    simp only [pollNext]
    rw [hr]

/-- Witness for C9: the three EOF behaviours at concrete inputs: empty
stream, a one-byte partial header, and a one-byte stream against a
three-byte payload. -/
theorem pollNext_eof_behaviour_witness :
    (pollNext decFail .head [] [] = (.readyNone, .head, [], [])) ∧
      ((pollNext decFail .head [5] []).1 = .readyErr .unexpectedEnd) ∧
      ((pollNext decFail (.data ⟨3⟩) [] [9]).1 = .readyErr .unexpectedEnd) :=
  ⟨(pollNext_eof_behaviour Unit decFail).1,
   (pollNext_eof_behaviour Unit decFail).2.1 [5] [] (by decide) (by decide),
   (pollNext_eof_behaviour Unit decFail).2.2 ⟨3⟩ [] [9] (by decide)⟩

/-! ### Claim C6 -/

/-- C6: whenever `evaluate` reaches the scoring step with a positive
`added_sigs`, the score is `1_000_000 − 10·level − combined_sigs` in
wrapping `usize` arithmetic when `new_total` equals `level_size(level)`,
and `100_000 − 100·level + 10·added_sigs − combined_sigs` otherwise,
where `(new_total, added_sigs, combined_sigs)` is the step-6 triple. -/
theorem evaluate_scoring_formulas (weights : Registry)
    (partitioner : Partitioner) (store : Store) (contribution : Contribution)
    (level : Nat) (identity : Finset Nat)
    (hid : identity = weights.signersIdentity contribution.contributors)
    (hlvl : level ≠ partitioner.levels)
    (hne : identity ≠ ∅)
    (hknown : ¬ (identity.card = 1
      ∧ (store.individualSignature level identity).isSome))
    (hcov : bestAlreadyCovers weights store level (partitioner.levelSize level)
      identity = false)
    (t : Nat × Int × Nat)
    (ht : evalTriple weights store level identity = some t)
    (hadded : 0 < t.2.1) :
    evaluate weights partitioner store contribution level =
      some (if t.1 = partitioner.levelSize level then
              wsub (wsub COMPLETES_LEVEL_BASE_SCORE
                (wmul level COMPLETES_LEVEL_LEVEL_PENALTY)) t.2.2
            else
              wsub (wadd (wsub IMPROVEMENT_BASE_SCORE
                  (wmul level IMPROVEMENT_LEVEL_PENALTY))
                (wmul t.2.1.toNat IMPROVEMENT_ADDED_SIG_BONUS)) t.2.2) := by
  subst hid
  simp only [evaluate]
  rw [if_neg hlvl, if_neg hne, if_neg hknown, hcov]
  rw [if_neg (by simp), ht]
  simp only [Option.map_some']
  unfold scoreOf
  rw [if_neg (not_le.mpr hadded)]

/-- Witness for C6: a fresh singleton contribution at level 2 takes the
improvement branch; its score evaluates to `99810`. -/
theorem evaluate_scoring_formulas_witness :
    evalTriple reg0 store0 2 ({2} : Finset Nat) = some (1, 1, 0) ∧
      evaluate reg0 part0 store0 ⟨{2}⟩ 2 =
        some (if (1 : Nat) = part0.levelSize 2 then
                wsub (wsub COMPLETES_LEVEL_BASE_SCORE
                  (wmul 2 COMPLETES_LEVEL_LEVEL_PENALTY)) 0
              else
                wsub (wadd (wsub IMPROVEMENT_BASE_SCORE
                    (wmul 2 IMPROVEMENT_LEVEL_PENALTY))
                  (wmul (Int.toNat 1) IMPROVEMENT_ADDED_SIG_BONUS)) 0) ∧
      evaluate reg0 part0 store0 ⟨{2}⟩ 2 = some 99810 :=
  ⟨by decide,
   evaluate_scoring_formulas reg0 part0 store0 ⟨{2}⟩ 2 {2} rfl (by decide)
     (by decide) (by decide) (by decide) (1, 1, 0) (by decide) (by decide),
   by decide⟩

/-! ### Claim C7 -/

/-- C7 counterexample: validator 1's individual contribution at level 1
is not stored and validator 1 is allowed on level 1, yet `evaluate`
returns `0` because the stored best already completes the level. -/
theorem evaluate_individual_counterexample :
    (reg0.signersIdentity (Contribution.mk {1}).contributors).card = 1 ∧
      store1.individualSignature 1 {1} = none ∧
      part0.identitiesOn 1 = some {1} ∧ (1 : Nat) ∈ ({1} : Finset Nat) ∧
      evaluate reg0 part0 store1 ⟨{1}⟩ 1 = some 0 := by decide

/-- C7 (amended): a fresh single-signer contribution scores positively
provided the stored best at its level does not already cover it: when the
identity of the contribution is the singleton `{v}`, that individual is
not stored at `level`, the best at `level` (if any) neither completes the
level nor contains `v`, and level and store cardinalities are within the
scoring headroom, `evaluate` returns a positive score.  (The original
disjunct about `identities_on` plays no role: `evaluate` never consults
`identities_on`.) -/
theorem evaluate_individual_positive (weights : Registry)
    (partitioner : Partitioner) (store : Store) (contribution : Contribution)
    (level : Nat) (v : Nat)
    (hid : weights.signersIdentity contribution.contributors = {v})
    (hstored : store.individualSignature level {v} = none)
    (hlev : level ≤ 1000)
    (hbest : ∀ B, store.best level = some B →
      (weights.signersIdentity B.contributors).card ≠ partitioner.levelSize level ∧
      v ∉ weights.signersIdentity B.contributors)
    (hbound : 10 * level + 1 + (store.individualVerified level).card +
      bestCardAt weights store level ≤ 1000000) :
    ∃ n, evaluate weights partitioner store contribution level = some n ∧ 0 < n := by
  by_cases hL : level = partitioner.levels
  · refine ⟨usizeMax, ?_, by decide⟩
    unfold evaluate
    rw [if_pos hL]
  simp only [evaluate]
  rw [if_neg hL, hid]
  rw [if_neg (Finset.singleton_ne_empty v)]
  have h3 : ¬ (({v} : Finset Nat).card = 1
      ∧ (store.individualSignature level {v}).isSome) := by
    rw [hstored]
    simp
  rw [if_neg h3]
  have hcov : bestAlreadyCovers weights store level (partitioner.levelSize level)
      ({v} : Finset Nat) = false := by
    unfold bestAlreadyCovers
    cases hb : store.best level with
    | none => rfl
    | some B =>
        obtain ⟨hc1, hc2⟩ := hbest B hb
        simp only [Bool.or_eq_false_iff, decide_eq_false_iff_not]
        exact ⟨fun hcnt => hc1 hcnt.symm,
          fun hsub => hc2 (Finset.singleton_subset_iff.mp hsub)⟩
  rw [hcov, if_neg (by simp)]
  cases hb : store.best level with
  | none =>
      have hbc : bestCardAt weights store level = 0 := by
        unfold bestCardAt
        rw [hb]
      rw [hbc] at hbound
      simp only [evalTriple]
      rw [hb]
      dsimp only
      refine ⟨_, rfl, ?_⟩
      have hvW : v ∈ ({v} : Finset Nat) ∪ store.individualVerified level :=
        Finset.mem_union_left _ (Finset.mem_singleton_self v)
      have hnt1 : 1 ≤ (({v} : Finset Nat) ∪ store.individualVerified level).card :=
        Finset.card_pos.mpr ⟨v, hvW⟩
      have hntle : (({v} : Finset Nat) ∪ store.individualVerified level).card
          ≤ 1 + (store.individualVerified level).card := by
        have h := Finset.card_union_le ({v} : Finset Nat)
          (store.individualVerified level)
        rw [Finset.card_singleton] at h
        exact h
      unfold scoreOf
      dsimp only
      rw [if_neg (by omega), Finset.card_singleton]
      split_ifs with hcomp
      · exact completes_score_pos level _ (by omega)
      · rw [show ((((({v} : Finset Nat) ∪ store.individualVerified level).card : Int)).toNat
            = (({v} : Finset Nat) ∪ store.individualVerified level).card) from by omega]
        exact improvement_score_pos level _ _ hlev (by omega) (by omega) (by omega)
  | some B =>
      obtain ⟨hc1, hc2⟩ := hbest B hb
      have hbc : bestCardAt weights store level
          = (weights.signersIdentity B.contributors).card := by
        unfold bestCardAt
        rw [hb]
      rw [hbc] at hbound
      simp only [evalTriple]
      rw [hb]
      dsimp only
      have hint : ({v} : Finset Nat) ∩ weights.signersIdentity B.contributors = ∅ :=
        Finset.singleton_inter_of_not_mem hc2
      have hint2 : weights.signersIdentity B.contributors ∩ {v} = ∅ := by
        rw [Finset.inter_comm]
        exact hint
      rw [if_neg (by rw [hint]; simp)]
      have hcomb : combineNoOverlap (weights.signersIdentity B.contributors) {v}
          = some (weights.signersIdentity B.contributors ∪ {v}) := by
        unfold combineNoOverlap
        rw [if_pos hint2]
      rw [hcomb]
      dsimp only
      refine ⟨_, rfl, ?_⟩
      set B2 := weights.signersIdentity B.contributors with hB2def
      set V2 := store.individualVerified level with hV2def
      have hBF : B2 ⊆ (({v} : Finset Nat) ∪ V2) ∪ B2 := Finset.subset_union_right
      have hvF : v ∈ (({v} : Finset Nat) ∪ V2) ∪ B2 :=
        Finset.mem_union_left _ (Finset.mem_union_left _ (Finset.mem_singleton_self v))
      have hss : B2 ⊂ (({v} : Finset Nat) ∪ V2) ∪ B2 :=
        (Finset.ssubset_iff_of_subset hBF).mpr ⟨v, hvF, hc2⟩
      have hlt : B2.card < ((({v} : Finset Nat) ∪ V2) ∪ B2).card :=
        Finset.card_lt_card hss
      have hW : B2 ∪ {v} = insert v B2 := by
        rw [Finset.union_comm, ← Finset.insert_eq]
      have hWcard : (B2 ∪ {v}).card = B2.card + 1 := by
        rw [hW, Finset.card_insert_of_not_mem hc2]
      have hWF : B2 ∪ {v} ⊆ (({v} : Finset Nat) ∪ V2) ∪ B2 :=
        Finset.union_subset hBF (Finset.singleton_subset_iff.mpr hvF)
      have hxor : xorFin ((({v} : Finset Nat) ∪ V2) ∪ B2) (B2 ∪ {v})
          = ((({v} : Finset Nat) ∪ V2) ∪ B2) \ (B2 ∪ {v}) := by
        unfold xorFin
        rw [Finset.sdiff_eq_empty_iff_subset.mpr hWF, Finset.union_empty]
      have hcombined : (xorFin ((({v} : Finset Nat) ∪ V2) ∪ B2) (B2 ∪ {v})).card
          = ((({v} : Finset Nat) ∪ V2) ∪ B2).card - (B2.card + 1) := by
        rw [hxor, Finset.card_sdiff hWF, hWcard]
      have hFle : ((({v} : Finset Nat) ∪ V2) ∪ B2).card ≤ 1 + V2.card + B2.card := by
        calc ((({v} : Finset Nat) ∪ V2) ∪ B2).card
            ≤ (({v} : Finset Nat) ∪ V2).card + B2.card :=
              Finset.card_union_le _ _
          _ ≤ (({v} : Finset Nat).card + V2.card) + B2.card :=
              Nat.add_le_add_right (Finset.card_union_le _ _) _
          _ = 1 + V2.card + B2.card := by rw [Finset.card_singleton]
      unfold scoreOf
      dsimp only
      rw [if_neg (by omega)]
      split_ifs with hcomp
      · rw [hcombined]
        exact completes_score_pos level _ (by omega)
      · rw [show ((((({v} : Finset Nat) ∪ V2) ∪ B2).card : Int)
              - (B2.card : Int)).toNat
            = ((({v} : Finset Nat) ∪ V2) ∪ B2).card - B2.card from by omega]
        rw [hcombined]
        exact improvement_score_pos level _ _ hlev (by omega) (by omega) (by omega)

/-- Witness for C7 (amended): validator 1's fresh individual at level 1
with an empty store scores positively. -/
theorem evaluate_individual_positive_witness :
    reg0.signersIdentity (Contribution.mk {1}).contributors = {1} ∧
      store0.individualSignature 1 {1} = none ∧
      (∃ n, evaluate reg0 part0 store0 ⟨{1}⟩ 1 = some n ∧ 0 < n) :=
  ⟨by decide, by decide,
   evaluate_individual_positive reg0 part0 store0 ⟨{1}⟩ 1 1 (by decide)
     (by decide) (by decide)
     (fun B hB => Option.noConfusion hB)
     (by decide)⟩
